import Mathlib

/-!
Shallow embedding of the concurrent YouTube-channel batch processor:
`src/lib/api-key-manager.ts` (class ApiKeyManager), and
`src/lib/parallel-processor.ts` (cache helpers, processChannel,
processChannelBatch).  External collaborators (the identifier resolver
`extractChannelId`, the remote fetch edge function, the key validator and
the persistent localStorage store) are passed as parameters, following the
spec's §6 contracts.  JS numbers that only ever hold non-negative integers
are modelled as `Nat`; JS `Map` and the cache record are modelled as
insertion-ordered association lists.
-/

namespace YT

/-- Key status enum: 'pending' | 'valid' | 'invalid' | 'quota_exceeded'. -/
inductive KeyStatus
  | pending
  | valid
  | invalid
  | quota_exceeded
deriving DecidableEq, Repr

/-- Embeds interface ApiKeyInfo of api-key-manager.ts. -/
structure ApiKeyInfo where
  key : String
  status : KeyStatus
  error : Option String
  requestCount : Nat
  lastUsed : Option Nat
deriving DecidableEq, Repr

/-- Mutable fields of class ApiKeyManager: the keys Map, validKeysList and
currentIndex. -/
structure KMState where
  keys : List (String × ApiKeyInfo)
  validKeysList : List String
  currentIndex : Nat
deriving DecidableEq, Repr

/-- JS Map.set / record update: replaces the value in place when the key is
present (JS Maps keep insertion order on update), appends otherwise. -/
def recSet {α : Type} (m : List (String × α)) (k : String) (v : α) :
    List (String × α) :=
  if m.any (fun p => p.1 == k) then
    m.map (fun p => if p.1 == k then (k, v) else p)
  else m ++ [(k, v)]

/-- JS Map.get / record lookup. -/
def recGet {α : Type} (m : List (String × α)) (k : String) : Option α :=
  (m.find? (fun p => p.1 == k)).map Prod.snd

/-- Table this.retryDelays = [1000, 2000, 4000, 8000, 16000]. -/
def retryDelays : List Nat := [1000, 2000, 4000, 8000, 16000]

/-- Embeds getRetryDelay: retryDelays[Math.min(attempt, retryDelays.length - 1)]. -/
def getRetryDelay (attempt : Nat) : Nat :=
  retryDelays.getD (min attempt (retryDelays.length - 1)) 0

/-- Embeds getNextKey of api-key-manager.ts.  Returns the leased key (none
for JS null/undefined) and the updated manager state; `now` stands for
Date.now().  Faithful to the source even when currentIndex is out of
bounds (JS indexing then yields undefined but the cursor still advances). -/
def getNextKey (km : KMState) (now : Nat) : Option String × KMState :=
  if km.validKeysList.length = 0 then (none, km)
  else
    let keyOpt := km.validKeysList.get? km.currentIndex
    let km1 : KMState :=
      { km with currentIndex := (km.currentIndex + 1) % km.validKeysList.length }
    match keyOpt with
    | none => (none, km1)
    | some key =>
      match recGet km1.keys key with
      | some info =>
        (some key,
         { km1 with
            keys := recSet km1.keys key
              { info with requestCount := info.requestCount + 1, lastUsed := some now } })
      | none => (some key, km1)

/-- Embeds markKeyAsQuotaExceeded: set status/error when the record exists,
splice the first occurrence out of validKeysList (Array.prototype.splice at
indexOf), and reset the cursor to 0 when it falls off the shrunk list. -/
def markKeyAsQuotaExceeded (km : KMState) (key : String) : KMState :=
  let keys1 :=
    match recGet km.keys key with
    | some info =>
        recSet km.keys key
          { info with status := KeyStatus.quota_exceeded, error := some "Quota exceeded" }
    | none => km.keys
  if km.validKeysList.contains key then
    let vl := km.validKeysList.erase key
    { keys := keys1
      validKeysList := vl
      currentIndex := if vl.length ≤ km.currentIndex then 0 else km.currentIndex }
  else
    { km with keys := keys1 }

/-- Embeds hasAvailableKeys: validKeysList.length > 0. -/
def hasAvailableKeys (km : KMState) : Bool :=
  decide (0 < km.validKeysList.length)

/-- Embeds getAvailableKeyCount. -/
def getAvailableKeyCount (km : KMState) : Nat := km.validKeysList.length

/-- Embeds getTotalKeyCount (Map.size; recSet keeps keys unique). -/
def getTotalKeyCount (km : KMState) : Nat := km.keys.length

/-- Outcome of one call of the external key validator (the
validate-api-key edge function seen through supabase.functions.invoke):
a normal response carrying data.isValid and data.error, or a thrown
error with its message. -/
inductive ValidationOutcome
  | ok (isValid : Bool) (err : Option String)
  | fault (msg : String)
deriving DecidableEq, Repr

/-- One iteration of the validateKeys loop for one key and its validator
outcome: the record is first set to pending, then to valid or invalid, and
valid keys are appended to validKeysList. -/
def validateStep (km : KMState) (key : String) (out : ValidationOutcome) : KMState :=
  let km0 : KMState :=
    { km with keys := recSet km.keys key ⟨key, KeyStatus.pending, none, 0, none⟩ }
  match out with
  | ValidationOutcome.ok true _ =>
      { km0 with
          keys := recSet km0.keys key ⟨key, KeyStatus.valid, none, 0, none⟩
          validKeysList := km0.validKeysList ++ [key] }
  | ValidationOutcome.ok false e =>
      { km0 with keys := recSet km0.keys key ⟨key, KeyStatus.invalid, e, 0, none⟩ }
  | ValidationOutcome.fault m =>
      { km0 with keys := recSet km0.keys key ⟨key, KeyStatus.invalid, some m, 0, none⟩ }

/-- Embeds validateKeys of api-key-manager.ts: clears all state, then folds
validateStep over the submitted keys; `verdict i k` is the validator's
outcome for the i-th submitted key k. -/
def validateKeys (verdict : Nat → String → ValidationOutcome)
    (apiKeys : List String) : KMState :=
  (apiKeys.enum).foldl (fun km p => validateStep km p.2 (verdict p.1 p.2)) ⟨[], [], 0⟩

/-- Channel status: 'pending' | 'processing' | 'success' | 'error'. -/
inductive ChannelStatus
  | pending
  | processing
  | success
  | error
deriving DecidableEq, Repr

/-- Embeds interface ChannelData of types/channel.ts.  verifiedType keeps
its source string values 'none' | 'verified' | 'artist'. -/
structure ChannelData where
  id : String
  url : String
  title : String
  description : String
  subscriberCount : Nat
  videoCount : Nat
  viewCount : Nat
  publishedAt : String
  country : String
  thumbnailUrl : String
  isVerified : Bool
  verifiedType : String
  email : Option String
  customData : List (String × String)
  status : ChannelStatus
  errorMessage : Option String
deriving DecidableEq, Repr

/-- Embeds interface ChannelInput of types/channel.ts. -/
structure ChannelInput where
  url : String
  customData : List (String × String)
  rawLine : String
deriving DecidableEq, Repr

/-- Embeds interface CacheEntry of parallel-processor.ts. -/
structure CacheEntry where
  data : ChannelData
  timestamp : Nat
deriving DecidableEq, Repr

/-- The parsed JSON cache record Record of string to CacheEntry. -/
abbrev Cache : Type := List (String × CacheEntry)

/-- Constant CACHE_EXPIRY_MS = 24 * 60 * 60 * 1000. -/
def CACHE_EXPIRY_MS : Nat := 24 * 60 * 60 * 1000

/-- Embeds getCachedChannel of parallel-processor.ts over an already-read
cache record; `now` stands for Date.now().  With Nat subtraction a clock
that went backwards (now < timestamp) still reads as a hit, exactly as the
JS negative difference does. -/
def getCachedChannel (c : Cache) (channelId : String) (now : Nat) :
    Option ChannelData :=
  match recGet c channelId with
  | some entry =>
      if now - entry.timestamp < CACHE_EXPIRY_MS then some entry.data else none
  | none => none

/-- Embeds cacheChannel of parallel-processor.ts over the cache record:
unconditional overwrite of the entry with a fresh timestamp. -/
def cacheChannel (c : Cache) (channelId : String) (d : ChannelData) (now : Nat) :
    Cache :=
  recSet c channelId ⟨d, now⟩

/-- Bool test: pat matches the front of the character list. -/
def leadMatch : List Char → List Char → Bool
  | [], _ => true
  | _ :: _, [] => false
  | p :: ps, c :: cs => p == c && leadMatch ps cs

/-- Bool test: pat occurs somewhere inside the character list. -/
def hasSubAux (pat : List Char) : List Char → Bool
  | [] => leadMatch pat []
  | c :: cs => leadMatch pat (c :: cs) || hasSubAux pat cs

/-- JS String.prototype.includes. -/
def strIncludes (s pat : String) : Bool := hasSubAux pat.data s.data

/-- The quota classification of processChannel: data.error includes
'quotaExceeded' or 'rateLimitExceeded' or '403'. -/
def isQuotaError (msg : String) : Bool :=
  strIncludes msg "quotaExceeded" || strIncludes msg "rateLimitExceeded" ||
    strIncludes msg "403"

/-- Normalized identity returned by the external resolver extractChannelId:
a kind ('id' | 'handle' | 'custom' | 'user') and a value. -/
structure ParsedId where
  idType : String
  value : String
deriving DecidableEq, Repr

/-- The data fields of a successful youtube-channel-info response used to
build a ChannelData. -/
structure FetchPayload where
  channelId : String
  title : String
  description : String
  subscriberCount : Nat
  videoCount : Nat
  viewCount : Nat
  publishedAt : String
  country : String
  thumbnailUrl : String
  isVerified : Bool
  verifiedType : String
  email : Option String
deriving DecidableEq, Repr

/-- Outcome of one supabase.functions.invoke('youtube-channel-info') call:
invokeFault models a truthy error field (thrown, then caught, with its
message), dataError a response whose data.error string is set, success a
normal payload. -/
inductive FetchOutcome
  | invokeFault (msg : String)
  | dataError (msg : String)
  | success (payload : FetchPayload)
deriving DecidableEq, Repr

/-- ChannelData built from a successful fetch in processChannel. -/
def buildChannelData (p : FetchPayload) (input : ChannelInput) : ChannelData :=
  { id := p.channelId
    url := input.url
    title := p.title
    description := p.description
    subscriberCount := p.subscriberCount
    videoCount := p.videoCount
    viewCount := p.viewCount
    publishedAt := p.publishedAt
    country := p.country
    thumbnailUrl := p.thumbnailUrl
    isVerified := p.isVerified
    verifiedType := p.verifiedType
    email := p.email
    customData := input.customData
    status := ChannelStatus.success
    errorMessage := none }

/-- Embeds createErrorResult of parallel-processor.ts. -/
def createErrorResult (input : ChannelInput) (index : Nat) (errorMessage : String) :
    ChannelData :=
  { id := "error-" ++ toString index
    url := input.url
    title := "Error"
    description := ""
    subscriberCount := 0
    videoCount := 0
    viewCount := 0
    publishedAt := ""
    country := ""
    thumbnailUrl := ""
    isVerified := false
    verifiedType := "none"
    email := none
    customData := input.customData
    status := ChannelStatus.error
    errorMessage := some errorMessage }

/-- Everything one processChannel call produces: its returned ChannelData,
the key-manager and cache states after it, the key passed to each fetch
invocation in order, and the onKeyExhausted events (exhaustedCount,
remainingCount) it emitted. -/
structure ProcOut where
  result : ChannelData
  km : KMState
  cache : Cache
  fetchKeys : List String
  keyExhaustedEvents : List (Nat × Nat)
deriving DecidableEq, Repr

/-- Constant maxAttempts = 3 of processChannel. -/
def maxAttempts : Nat := 3

/-- Embeds the while (attempts < maxAttempts && !abortSignal.aborted) retry
loop of processChannel.  `oracle n` is the outcome of the n-th fetch
invocation for this item; `apiKey` is the const key leased before the loop
and — exactly as in the source — it is never reassigned, in particular not
on the quota path, where a fresh key is leased and then only used to decide
whether to continue.  The fuel argument only bounds the recursion; it
starts at maxAttempts and cannot run out before the loop condition fails,
and its exhaustion arm returns the same 'Max retries exceeded' result the
fallthrough does. -/
def processLoop (oracle : Nat → FetchOutcome) (input : ChannelInput) (index : Nat)
    (cacheKey : String) (apiKey : String) (aborted : Bool) (now : Nat) :
    Nat → Nat → KMState → Cache → List String → List (Nat × Nat) → ProcOut
  | 0, _, km, cache, trace, events =>
      ⟨createErrorResult input index "Max retries exceeded", km, cache, trace, events⟩
  | fuel + 1, attempts, km, cache, trace, events =>
    if attempts < maxAttempts ∧ aborted = false then
      let trace1 := trace ++ [apiKey]
      match oracle trace.length with
      | FetchOutcome.success p =>
          let cd := buildChannelData p input
          ⟨cd, km, cacheChannel cache cacheKey cd now, trace1, events⟩
      | FetchOutcome.dataError msg =>
          if isQuotaError msg then
            let km1 := markKeyAsQuotaExceeded km apiKey
            let events1 :=
              events ++ [(getTotalKeyCount km1 - getAvailableKeyCount km1,
                          getAvailableKeyCount km1)]
            match getNextKey km1 now with
            | (some _, km2) =>
                processLoop oracle input index cacheKey apiKey aborted now
                  fuel (attempts + 1) km2 cache trace1 events1
            | (none, km2) =>
                ⟨createErrorResult input index "All API keys exhausted",
                 km2, cache, trace1, events1⟩
          else
            if attempts + 1 < maxAttempts then
              processLoop oracle input index cacheKey apiKey aborted now
                fuel (attempts + 1) km cache trace1 events
            else
              ⟨createErrorResult input index msg, km, cache, trace1, events⟩
      | FetchOutcome.invokeFault msg =>
          if attempts + 1 < maxAttempts then
            processLoop oracle input index cacheKey apiKey aborted now
              fuel (attempts + 1) km cache trace1 events
          else
            ⟨createErrorResult input index msg, km, cache, trace1, events⟩
    else
      ⟨createErrorResult input index "Max retries exceeded", km, cache, trace, events⟩

/-- Embeds processChannel of parallel-processor.ts.  The resolver stands
for extractChannelId and the oracle for the fetch collaborator (spec §6);
`aborted` is the abortSignal value, held fixed through this item. -/
def processChannel (resolver : String → Option ParsedId)
    (oracle : Nat → FetchOutcome) (input : ChannelInput) (index : Nat)
    (aborted : Bool) (km : KMState) (cache : Cache) (now : Nat) : ProcOut :=
  match resolver input.url with
  | none => ⟨createErrorResult input index "Invalid URL format", km, cache, [], []⟩
  | some parsed =>
    let cacheKey := parsed.idType ++ ":" ++ parsed.value
    match getCachedChannel cache cacheKey now with
    | some cached =>
        ⟨{ cached with customData := input.customData, status := ChannelStatus.success },
         km, cache, [], []⟩
    | none =>
      match getNextKey km now with
      | (none, km1) =>
          ⟨createErrorResult input index "No available API keys", km1, cache, [], []⟩
      | (some apiKey, km1) =>
          processLoop oracle input index cacheKey apiKey aborted now
            maxAttempts 0 km1 cache [] []

/-- State threaded through the processChannelBatch worker loop. -/
structure BatchState where
  resultsOpt : List (Option ChannelData)
  nextIndex : Nat
  completed : Nat
  errors : Nat
  aborted : Bool
  km : KMState
  cache : Cache
deriving Repr

/-- Embeds one worker's processOne loop of processChannelBatch, run with a
single worker so the interleaving is deterministic: claim the next index,
stop when past the end, process the item, write its slot, update the
counters, and abort the batch when the key pool has drained.  `oracle i n`
is the outcome of the n-th fetch invocation of item i. -/
def runWorker (resolver : String → Option ParsedId)
    (oracle : Nat → Nat → FetchOutcome) (inputs : List ChannelInput) (now : Nat) :
    Nat → BatchState → BatchState
  | 0, st => st
  | fuel + 1, st =>
    if st.aborted then st
    else
      let index := st.nextIndex
      let st1 := { st with nextIndex := index + 1 }
      match inputs.get? index with
      | none => st1
      | some input =>
        let out := processChannel resolver (oracle index) input index
          st1.aborted st1.km st1.cache now
        let isSucc := out.result.status = ChannelStatus.success
        let st2 : BatchState :=
          { st1 with
              resultsOpt := st1.resultsOpt.set index (some out.result)
              completed := if isSucc then st1.completed + 1 else st1.completed
              errors := if isSucc then st1.errors else st1.errors + 1
              km := out.km
              cache := out.cache }
        if hasAvailableKeys st2.km then
          runWorker resolver oracle inputs now fuel st2
        else { st2 with aborted := true }

/-- Embeds processChannelBatch of parallel-processor.ts in its
deterministic single-worker instance (threadCount = 1): allocate N empty
slots, run the worker to completion, and return results.filter(Boolean)
— the filterMap drops every slot the cancelled run never filled — next to
the final state. -/
def processChannelBatchSeq (resolver : String → Option ParsedId)
    (oracle : Nat → Nat → FetchOutcome) (inputs : List ChannelInput)
    (km : KMState) (cache : Cache) (now : Nat) :
    List ChannelData × BatchState :=
  let st0 : BatchState :=
    ⟨List.replicate inputs.length none, 0, 0, 0, false, km, cache⟩
  let fin := runWorker resolver oracle inputs now (inputs.length + 1) st0
  (fin.resultsOpt.filterMap id, fin)

/-- Observable state of the persistent localStorage slot backing the cache:
reading it may throw, return null, return content JSON.parse rejects, or
return content that parses to a cache record. -/
inductive StorageState
  | readFault
  | absent
  | unparseable (raw : String)
  | stored (c : Cache)

/-- The try-block body of getCache: localStorage.getItem then JSON.parse,
with each failure surfaced as an exception value. -/
def getCacheBody : StorageState → Except String Cache
  | StorageState.readFault => Except.error "getItem threw"
  | StorageState.absent => Except.ok []
  | StorageState.unparseable _ => Except.error "JSON.parse threw"
  | StorageState.stored c => Except.ok c

/-- Embeds getCache of parallel-processor.ts: the catch turns any failure
of the body into the empty record. -/
def getCacheLS (s : StorageState) : Cache :=
  match getCacheBody s with
  | Except.ok c => c
  | Except.error _ => []

/-- Embeds getCachedChannel reading through the persistent store. -/
def getCachedChannelLS (s : StorageState) (channelId : String) (now : Nat) :
    Option ChannelData :=
  getCachedChannel (getCacheLS s) channelId now

/-- The try-block body of setCache: localStorage.setItem, which may throw
(writeFault true); on success the slot holds the serialized record. -/
def setCacheBody (writeFault : Bool) (c : Cache) : Except String StorageState :=
  if writeFault then Except.error "setItem threw" else Except.ok (StorageState.stored c)

/-- Embeds setCache of parallel-processor.ts applied to a store in state s:
the catch only warns, leaving the store as it was. -/
def setCacheLS (writeFault : Bool) (s : StorageState) (c : Cache) : StorageState :=
  match setCacheBody writeFault c with
  | Except.ok s1 => s1
  | Except.error _ => s

/-- Embeds cacheChannel of parallel-processor.ts through the persistent
store: read (with its catch), overwrite the entry, write (with its catch). -/
def cacheChannelLS (writeFault : Bool) (s : StorageState) (channelId : String)
    (d : ChannelData) (now : Nat) : StorageState :=
  setCacheLS writeFault s (cacheChannel (getCacheLS s) channelId d now)

/-- Key-pool operations available to workers during a batch: leasing a key
(getNextKey at some clock value) and marking a key exhausted. -/
inductive KMOp
  | lease (now : Nat)
  | mark (key : String)

/-- Effect of one batch-time key-pool operation on the manager state. -/
def applyOp (km : KMState) : KMOp → KMState
  | KMOp.lease now => (getNextKey km now).2
  | KMOp.mark key => markKeyAsQuotaExceeded km key

/-- Effect of a sequence of batch-time key-pool operations. -/
def applyOps (km : KMState) (ops : List KMOp) : KMState :=
  ops.foldl applyOp km

/-- Sample ApiKeyInfo in valid status, as validateKeys stores it. -/
def validInfo (k : String) : ApiKeyInfo := ⟨k, KeyStatus.valid, none, 0, none⟩

/-- Sample payload for witness runs. -/
def samplePayload : FetchPayload :=
  ⟨"UCx", "Title", "Desc", 10, 2, 100, "2020-01-01", "US", "http://t", false, "none", none⟩

/-- Sample input item for witness runs. -/
def sampleInput (u : String) : ChannelInput := ⟨u, [], u⟩

theorem retryDelay_table_mono :
    ∀ j, j < 5 → ∀ i, i < 5 → i ≤ j →
      retryDelays.getD i 0 ≤ retryDelays.getD j 0 := by decide

/-- C8: getRetryDelay is a pure function of the attempt number, monotone
nondecreasing, following the table 1s, 2s, 4s, 8s, 16s and returning the
last value 16s for every attempt index at or beyond the table length. -/
theorem claim_C8_retry_delay :
    (∀ a b : Nat, a ≤ b → getRetryDelay a ≤ getRetryDelay b) ∧
    getRetryDelay 0 = 1000 ∧ getRetryDelay 1 = 2000 ∧ getRetryDelay 2 = 4000 ∧
    getRetryDelay 3 = 8000 ∧ getRetryDelay 4 = 16000 ∧
    ∀ a : Nat, retryDelays.length ≤ a → getRetryDelay a = 16000 := by
  refine ⟨?_, rfl, rfl, rfl, rfl, rfl, ?_⟩
  · intro a b hab
    have h1 : min a 4 ≤ min b 4 := min_le_min hab le_rfl
    have h2 : min b 4 < 5 := by omega
    have h3 : min a 4 < 5 := by omega
    have h4 := retryDelay_table_mono (min b 4) h2 (min a 4) h3 h1
    simpa [getRetryDelay, retryDelays] using h4
  · intro a ha
    have h5 : retryDelays.length = 5 := by rfl
    rw [h5] at ha
    have h6 : min a (retryDelays.length - 1) = 4 := by
      rw [h5]; omega
    rw [getRetryDelay, h6]
    rfl

/-- Closed witness for C8 at attempts 2 and 7. -/
theorem claim_C8_retry_delay_witness :
    getRetryDelay 2 ≤ getRetryDelay 7 ∧ getRetryDelay 7 = 16000 :=
  ⟨claim_C8_retry_delay.1 2 7 (by decide),
   claim_C8_retry_delay.2.2.2.2.2.2 7 (by decide)⟩

theorem find?_append_none {α : Type} (p : α → Bool) (m l : List α)
    (h : m.find? p = none) : (m ++ l).find? p = l.find? p := by
  induction m with
  | nil => rfl
  | cons a t ih =>
    rw [List.find?] at h
    cases hp : p a with
    | true => rw [hp] at h; exact absurd h (by simp)
    | false =>
      rw [hp] at h
      simpa [List.find?, hp] using ih h

theorem recGet_recSet {α : Type} (m : List (String × α)) (k : String) (v : α) :
    recGet (recSet m k v) k = some v := by
  unfold recSet recGet
  by_cases h : (m.any fun p => p.1 == k) = true
  · rw [if_pos h, List.find?_map]
    have hpf : ((fun p : String × α => p.1 == k) ∘
        fun p : String × α => if p.1 == k then (k, v) else p) =
        fun p : String × α => p.1 == k := by
      funext q
      by_cases hq : q.1 = k
      · simp [hq]
      · simp [hq]
    rw [hpf]
    obtain ⟨x, hx, hpx⟩ := List.any_eq_true.mp h
    cases hfind : m.find? fun p => p.1 == k with
    | none =>
      rw [List.find?_eq_none] at hfind
      exact absurd hpx (hfind x hx)
    | some y =>
      have hy := List.find?_some hfind
      simp only [beq_iff_eq] at hy
      simp [hy]
  · rw [if_neg h]
    have hnone : (m.find? fun p => p.1 == k) = none := by
      rw [List.find?_eq_none]
      intro x hx hc
      exact h (List.any_eq_true.mpr ⟨x, hx, hc⟩)
    rw [find?_append_none _ _ _ hnone]
    simp [List.find?]

/-- C6: a cacheChannel put followed by a getCachedChannel get strictly less
than the 24-hour TTL later returns the payload unchanged; a get at or after
TTL expiry returns nothing. -/
theorem claim_C6_cache_roundtrip :
    ∀ (c : Cache) (channelId : String) (p : ChannelData) (t d : Nat),
      (d < CACHE_EXPIRY_MS →
        getCachedChannel (cacheChannel c channelId p t) channelId (t + d) = some p) ∧
      (CACHE_EXPIRY_MS ≤ d →
        getCachedChannel (cacheChannel c channelId p t) channelId (t + d) = none) := by
  intro c channelId p t d
  have h := recGet_recSet c channelId (⟨p, t⟩ : CacheEntry)
  constructor
  · intro hd
    simp [getCachedChannel, cacheChannel, h, Nat.add_sub_cancel_left, hd]
  · intro hd
    simp only [getCachedChannel, cacheChannel, h, Nat.add_sub_cancel_left]
    rw [if_neg (by omega)]

/-- Closed witness for C6: a hit 5 ms after the put, a miss at exactly the
TTL. -/
theorem claim_C6_cache_roundtrip_witness :
    getCachedChannel
        (cacheChannel [] "id:UCx" (buildChannelData samplePayload (sampleInput "u")) 0)
        "id:UCx" (0 + 5)
      = some (buildChannelData samplePayload (sampleInput "u")) ∧
    getCachedChannel
        (cacheChannel [] "id:UCx" (buildChannelData samplePayload (sampleInput "u")) 0)
        "id:UCx" (0 + CACHE_EXPIRY_MS) = none :=
  ⟨(claim_C6_cache_roundtrip [] "id:UCx" _ 0 5).1 (by decide),
   (claim_C6_cache_roundtrip [] "id:UCx" _ 0 CACHE_EXPIRY_MS).2 (by omega)⟩

/-- C10: the cache operations are total at the public interface for every
state of the backing store: a store whose read throws, whose content is
unparseable, or that is empty behaves as an empty cache, so a get returns
none instead of propagating the failure, and a cacheChannel whose write
throws leaves the store unchanged (the write is silently dropped). -/
theorem claim_C10_cache_total :
    ∀ (channelId raw : String) (now : Nat) (s : StorageState) (d : ChannelData),
      getCachedChannelLS StorageState.readFault channelId now = none ∧
      getCachedChannelLS (StorageState.unparseable raw) channelId now = none ∧
      getCachedChannelLS StorageState.absent channelId now = none ∧
      getCacheLS StorageState.readFault = [] ∧
      getCacheLS (StorageState.unparseable raw) = [] ∧
      cacheChannelLS true s channelId d now = s := by
  intro channelId raw now s d
  exact ⟨rfl, rfl, rfl, rfl, rfl, rfl⟩

/-- C9: when the resolver rejects the raw identity, processChannel returns
the InvalidInput error result immediately, with no fetch invocation and the
key-pool state (statuses, request counts and cursor) left untouched. -/
theorem claim_C9_invalid_input :
    ∀ (resolver : String → Option ParsedId) (oracle : Nat → FetchOutcome)
      (input : ChannelInput) (index : Nat) (aborted : Bool) (km : KMState)
      (cache : Cache) (now : Nat),
      resolver input.url = none →
      processChannel resolver oracle input index aborted km cache now =
        ⟨createErrorResult input index "Invalid URL format", km, cache, [], []⟩ := by
  intro resolver oracle input index aborted km cache now h
  simp [processChannel, h]

/-- Closed witness for C9 on a concrete always-failing resolver. -/
theorem claim_C9_invalid_input_witness :
    processChannel (fun _ => none) (fun _ => FetchOutcome.invokeFault "x")
        (sampleInput "u") 0 false ⟨[], [], 0⟩ [] 0 =
      ⟨createErrorResult (sampleInput "u") 0 "Invalid URL format",
       ⟨[], [], 0⟩, [], [], []⟩ :=
  claim_C9_invalid_input _ _ _ _ _ _ _ _ rfl

theorem applyOp_empty (km : KMState) (op : KMOp) (h : km.validKeysList = []) :
    (applyOp km op).validKeysList = [] := by
  cases op with
  | lease now => simp [applyOp, getNextKey, h]
  | mark key => simp [applyOp, markKeyAsQuotaExceeded, h]

theorem applyOps_empty (km : KMState) (ops : List KMOp)
    (h : km.validKeysList = []) : (applyOps km ops).validKeysList = [] := by
  induction ops generalizing km with
  | nil => exact h
  | cons op rest ih => exact ih (applyOp km op) (applyOp_empty km op h)

/-- C7: once validKeysList is empty, hasAvailableKeys is false and every
subsequent getNextKey under any further batch-time operations returns none,
the valid set staying empty until a revalidation or reset. -/
theorem claim_C7_all_exhausted :
    ∀ (km : KMState) (ops : List KMOp) (now : Nat),
      km.validKeysList = [] →
      hasAvailableKeys (applyOps km ops) = false ∧
      (getNextKey (applyOps km ops) now).1 = none ∧
      (applyOps km ops).validKeysList = [] := by
  intro km ops now h
  have he := applyOps_empty km ops h
  refine ⟨?_, ?_, he⟩
  · simp [hasAvailableKeys, he]
  · simp [getNextKey, he]

/-- Closed witness for C7: a one-key pool whose key is marked exhausted,
then probed through further lease and mark operations. -/
theorem claim_C7_all_exhausted_witness :
    hasAvailableKeys
        (applyOps (markKeyAsQuotaExceeded ⟨[("a", validInfo "a")], ["a"], 0⟩ "a")
          [KMOp.lease 0, KMOp.mark "a"]) = false ∧
    (getNextKey
        (applyOps (markKeyAsQuotaExceeded ⟨[("a", validInfo "a")], ["a"], 0⟩ "a")
          [KMOp.lease 0, KMOp.mark "a"]) 7).1 = none ∧
    (applyOps (markKeyAsQuotaExceeded ⟨[("a", validInfo "a")], ["a"], 0⟩ "a")
        [KMOp.lease 0, KMOp.mark "a"]).validKeysList = [] :=
  claim_C7_all_exhausted _ _ 7 (by decide)

theorem contains_iff_memS (l : List String) (k : String) :
    l.contains k = true ↔ k ∈ l := List.elem_iff

theorem getNextKey_validKeysList (km : KMState) (now : Nat) :
    (getNextKey km now).2.validKeysList = km.validKeysList := by
  rw [getNextKey]
  split
  · rfl
  · dsimp only
    split
    · rfl
    · split <;> rfl

theorem mark_validKeysList (km : KMState) (key : String) :
    (markKeyAsQuotaExceeded km key).validKeysList =
      if km.validKeysList.contains key then km.validKeysList.erase key
      else km.validKeysList := by
  rw [markKeyAsQuotaExceeded]
  by_cases h : km.validKeysList.contains key
  · rw [if_pos h, if_pos h]
  · rw [if_neg h, if_neg h]

theorem not_mem_applyOp (km : KMState) (op : KMOp) (k : String)
    (h : k ∉ km.validKeysList) : k ∉ (applyOp km op).validKeysList := by
  cases op with
  | lease now => rw [applyOp, getNextKey_validKeysList]; exact h
  | mark key =>
    rw [applyOp, mark_validKeysList]
    split
    · intro hc; exact h (List.mem_of_mem_erase hc)
    · exact h

theorem not_mem_applyOps (km : KMState) (ops : List KMOp) (k : String)
    (h : k ∉ km.validKeysList) : k ∉ (applyOps km ops).validKeysList := by
  induction ops generalizing km with
  | nil => exact h
  | cons op rest ih => exact ih _ (not_mem_applyOp km op k h)

theorem getNextKey_some_mem (km : KMState) (now : Nat) (k : String)
    (h : (getNextKey km now).1 = some k) : k ∈ km.validKeysList := by
  rw [getNextKey] at h
  by_cases hl : km.validKeysList.length = 0
  · rw [if_pos hl] at h; exact absurd h (by simp)
  · rw [if_neg hl] at h
    dsimp only at h
    cases hk : km.validKeysList.get? km.currentIndex with
    | none => rw [hk] at h; exact absurd h (by simp)
    | some key =>
      rw [hk] at h
      dsimp only at h
      have hkm : key ∈ km.validKeysList := List.get?_mem hk
      cases hrg : recGet km.keys key with
      | none =>
        rw [hrg] at h
        simp only [Option.some.injEq] at h
        exact h ▸ hkm
      | some info =>
        rw [hrg] at h
        simp only [Option.some.injEq] at h
        exact h ▸ hkm

/-- Key pool produced by validating the duplicate submission [k, k] with a
validator that accepts both copies, as the source allows: validKeysList
then holds k twice. -/
def dupKM : KMState :=
  validateKeys (fun _ _ => ValidationOutcome.ok true none) ["k", "k"]

/-- C3 counterexample: starting from the pool validated over the duplicate
submission [k, k], markKeyAsQuotaExceeded k puts k in quota_exceeded status
yet splices only the first of its two validKeysList occurrences, so the
very next getNextKey lease returns k again while its status is
quota_exceeded — refuting the claim for this operation sequence. -/
theorem claim_C3_cex :
    (getNextKey (markKeyAsQuotaExceeded dupKM "k") 0).1 = some "k" ∧
    (recGet (markKeyAsQuotaExceeded dupKM "k").keys "k").map ApiKeyInfo.status =
      some KeyStatus.quota_exceeded :=
  ⟨rfl, rfl⟩

/-- C3 amended: provided the validated key list holds no duplicates
(validKeysList Nodup), once markKeyAsQuotaExceeded k has run, no later
getNextKey lease in the batch — under any further sequence of lease and
mark operations — returns k. -/
theorem claim_C3_amended :
    ∀ (km : KMState) (k : String) (ops : List KMOp) (now : Nat),
      km.validKeysList.Nodup →
      (getNextKey (applyOps (markKeyAsQuotaExceeded km k) ops) now).1 ≠ some k := by
  intro km k ops now hnd h
  have h1 : k ∉ (markKeyAsQuotaExceeded km k).validKeysList := by
    rw [mark_validKeysList]
    split
    · exact hnd.not_mem_erase
    · next hc => exact fun hm => hc ((contains_iff_memS _ _).mpr hm)
  have h2 := not_mem_applyOps _ ops k h1
  exact h2 (getNextKey_some_mem _ now k h)

/-- Closed witness for the amended C3 on a two-key pool: after marking key
a exhausted and one further lease, leasing never returns a. -/
theorem claim_C3_amended_witness :
    (getNextKey
        (applyOps
          (markKeyAsQuotaExceeded
            ⟨[("a", validInfo "a"), ("b", validInfo "b")], ["a", "b"], 0⟩ "a")
          [KMOp.lease 3]) 4).1 ≠ some "a" :=
  claim_C3_amended ⟨[("a", validInfo "a"), ("b", validInfo "b")], ["a", "b"], 0⟩
    "a" [KMOp.lease 3] 4 (by decide)

theorem getNextKey_fst (km : KMState) (now : Nat)
    (h : ¬ km.validKeysList.length = 0) :
    (getNextKey km now).1 = km.validKeysList.get? km.currentIndex := by
  rw [getNextKey, if_neg h]
  dsimp only
  cases hk : km.validKeysList.get? km.currentIndex with
  | none => rfl
  | some key =>
    dsimp only
    split <;> rfl

theorem getNextKey_currentIndex (km : KMState) (now : Nat)
    (h : ¬ km.validKeysList.length = 0) :
    (getNextKey km now).2.currentIndex =
      (km.currentIndex + 1) % km.validKeysList.length := by
  rw [getNextKey, if_neg h]
  dsimp only
  cases hk : km.validKeysList.get? km.currentIndex with
  | none => rfl
  | some key =>
    dsimp only
    split <;> rfl

/-- Iterated getNextKey: the list of lease outcomes of n consecutive calls
at one clock value, with the manager state after them. -/
def leaseSeq : Nat → KMState → Nat → List (Option String) × KMState
  | 0, km, _ => ([], km)
  | n + 1, km, now =>
    let p := getNextKey km now
    let rest := leaseSeq n p.2 now
    (p.1 :: rest.1, rest.2)

theorem leaseSeq_spec (now : Nat) :
    ∀ (n : Nat) (km : KMState), km.currentIndex < km.validKeysList.length →
      (leaseSeq n km now).1 =
        (List.range n).map
          (fun i => km.validKeysList.get?
            ((km.currentIndex + i) % km.validKeysList.length)) ∧
      (leaseSeq n km now).2.validKeysList = km.validKeysList ∧
      (leaseSeq n km now).2.currentIndex =
        (km.currentIndex + n) % km.validKeysList.length := by
  intro n
  induction n with
  | zero =>
    intro km h
    exact ⟨rfl, rfl, by simp [leaseSeq, Nat.mod_eq_of_lt h]⟩
  | succ n ih =>
    intro km h
    have hlen : ¬ km.validKeysList.length = 0 := by omega
    have h1 := getNextKey_fst km now hlen
    have h2 := getNextKey_validKeysList km now
    have h3 := getNextKey_currentIndex km now hlen
    have hci1 : (getNextKey km now).2.currentIndex <
        (getNextKey km now).2.validKeysList.length := by
      rw [h2, h3]
      exact Nat.mod_lt _ (by omega)
    obtain ⟨ihA, ihB, ihC⟩ := ih (getNextKey km now).2 hci1
    refine ⟨?_, ?_, ?_⟩
    · show (getNextKey km now).1 :: (leaseSeq n (getNextKey km now).2 now).1 = _
      rw [h1, ihA, h2, h3, List.range_succ_eq_map, List.map_cons, List.map_map]
      congr 1
      · rw [Nat.add_zero, Nat.mod_eq_of_lt h]
      · apply List.map_congr_left
        intro i _
        show km.validKeysList.get?
            (((km.currentIndex + 1) % km.validKeysList.length + i) %
              km.validKeysList.length) = _
        rw [Nat.mod_add_mod]
        have he : km.currentIndex + 1 + i = km.currentIndex + Nat.succ i := by
          omega
        rw [he]
        rfl
    · show (leaseSeq n (getNextKey km now).2 now).2.validKeysList = _
      rw [ihB, h2]
    · show (leaseSeq n (getNextKey km now).2 now).2.currentIndex = _
      rw [ihC, h2, h3, Nat.mod_add_mod]
      have he : km.currentIndex + 1 + n = km.currentIndex + (n + 1) := by
        omega
      rw [he]

theorem leaseSeq_full_cycle (km : KMState) (now : Nat)
    (h : km.currentIndex < km.validKeysList.length) :
    (leaseSeq km.validKeysList.length km now).1 =
      (km.validKeysList.rotate km.currentIndex).map some := by
  obtain ⟨hA, _, _⟩ := leaseSeq_spec now km.validKeysList.length km h
  rw [hA]
  apply List.ext_get
  · simp
  · intro n h1 h2
    rw [List.get_map, List.get_map, List.get_range, List.get_rotate]
    dsimp only
    rw [Nat.add_comm km.currentIndex n]
    exact List.get?_eq_get _

/-- C4: round-robin fairness — for a duplicate-free pool of K valid keys
whose cursor is in range, K consecutive getNextKey calls with no
exhaustion in between lease each of the K keys exactly once (the lease
outcomes are a permutation, a rotation by the cursor, of the valid list),
and the cursor returns to its starting value, having advanced modulo the
valid-set size. -/
theorem claim_C4_round_robin :
    ∀ (km : KMState) (now K : Nat),
      K = km.validKeysList.length →
      km.validKeysList.Nodup →
      km.currentIndex < K →
      ((leaseSeq K km now).1.filterMap id).Perm km.validKeysList ∧
      (∀ key ∈ km.validKeysList,
        ((leaseSeq K km now).1.filterMap id).count key = 1) ∧
      (leaseSeq K km now).2.currentIndex = km.currentIndex := by
  intro km now K hK hnd hci
  subst hK
  have hrot := leaseSeq_full_cycle km now hci
  have hfm : (leaseSeq km.validKeysList.length km now).1.filterMap id =
      km.validKeysList.rotate km.currentIndex := by
    rw [hrot, List.filterMap_map]
    exact List.filterMap_some _
  have hperm : ((leaseSeq km.validKeysList.length km now).1.filterMap id).Perm
      km.validKeysList := by
    rw [hfm]; exact List.rotate_perm _ _
  refine ⟨hperm, ?_, ?_⟩
  · intro key hkey
    rw [hperm.count_eq key]
    exact List.count_eq_one_of_mem hnd hkey
  · obtain ⟨_, _, hC⟩ := leaseSeq_spec now km.validKeysList.length km hci
    rw [hC, Nat.add_mod_right]
    exact Nat.mod_eq_of_lt hci

/-- Closed witness for C4 on a three-key pool with the cursor at 1: a full
cycle of three leases returns b, c, a — each key once — and restores the
cursor. -/
theorem claim_C4_round_robin_witness :
    ((leaseSeq 3 ⟨[("a", validInfo "a"), ("b", validInfo "b"),
        ("c", validInfo "c")], ["a", "b", "c"], 1⟩ 0).1.filterMap id).Perm
      ["a", "b", "c"] ∧
    ((leaseSeq 3 ⟨[("a", validInfo "a"), ("b", validInfo "b"),
        ("c", validInfo "c")], ["a", "b", "c"], 1⟩ 0).1.filterMap id).count "b" = 1 ∧
    (leaseSeq 3 ⟨[("a", validInfo "a"), ("b", validInfo "b"),
        ("c", validInfo "c")], ["a", "b", "c"], 1⟩ 0).2.currentIndex = 1 := by
  have h := claim_C4_round_robin
    ⟨[("a", validInfo "a"), ("b", validInfo "b"), ("c", validInfo "c")],
      ["a", "b", "c"], 1⟩ 0 3 rfl (by decide) (by decide)
  exact ⟨h.1, h.2.1 "b" (by decide), h.2.2⟩

/-- C5: retry bound — for an item that resolves, misses the cache and is
granted a key lease, when every fetch outcome is a thrown transient error
and cancellation is never signalled, processChannel terminates with a
terminal error result (carrying the last attempt's message) after exactly
maxAttempts = 3 fetch invocations, never retrying further. -/
theorem claim_C5_retry_bound :
    ∀ (resolver : String → Option ParsedId) (oracle : Nat → FetchOutcome)
      (msgs : Nat → String) (input : ChannelInput) (index : Nat)
      (km : KMState) (cache : Cache) (now : Nat) (parsed : ParsedId)
      (apiKey : String) (km1 : KMState),
      resolver input.url = some parsed →
      getCachedChannel cache (parsed.idType ++ ":" ++ parsed.value) now = none →
      getNextKey km now = (some apiKey, km1) →
      (∀ n, oracle n = FetchOutcome.invokeFault (msgs n)) →
      (processChannel resolver oracle input index false km cache now).result =
        createErrorResult input index (msgs 2) ∧
      (processChannel resolver oracle input index false km cache now).fetchKeys =
        [apiKey, apiKey, apiKey] := by
  intro resolver oracle msgs input index km cache now parsed apiKey km1
    hres hcache hlease hor
  rw [processChannel, hres]
  dsimp only
  rw [hcache, hlease]
  simp only [processLoop, hor, maxAttempts]
  norm_num

/-- Closed witness for C5: one valid key, every fetch throwing, exactly
three invocations and a terminal error result. -/
theorem claim_C5_retry_bound_witness :
    (processChannel (fun _ => some ⟨"id", "X"⟩)
        (fun _ => FetchOutcome.invokeFault "boom") (sampleInput "u") 0 false
        ⟨[("K", validInfo "K")], ["K"], 0⟩ [] 0).result =
      createErrorResult (sampleInput "u") 0 "boom" ∧
    (processChannel (fun _ => some ⟨"id", "X"⟩)
        (fun _ => FetchOutcome.invokeFault "boom") (sampleInput "u") 0 false
        ⟨[("K", validInfo "K")], ["K"], 0⟩ [] 0).fetchKeys = ["K", "K", "K"] :=
  claim_C5_retry_bound (fun _ => some ⟨"id", "X"⟩)
    (fun _ => FetchOutcome.invokeFault "boom") (fun _ => "boom")
    (sampleInput "u") 0 ⟨[("K", validInfo "K")], ["K"], 0⟩ [] 0 ⟨"id", "X"⟩
    "K" ⟨[("K", ⟨"K", KeyStatus.valid, none, 1, some 0⟩)], ["K"], 0⟩
    rfl rfl (by decide) (fun _ => rfl)

/-- Two-key pool with A and B valid, cursor at 0. -/
def kmAB : KMState :=
  ⟨[("A", validInfo "A"), ("B", validInfo "B")], ["A", "B"], 0⟩

/-- Fetch oracle whose first invocation reports a quota error in
data.error and whose second succeeds. -/
def quotaThenSuccess : Nat → FetchOutcome :=
  fun n => if n = 0 then FetchOutcome.dataError "quotaExceeded"
           else FetchOutcome.success samplePayload

/-- C2 (code bug exhibit): with pool [A, B] and the first fetch classified
as quota, processChannel marks A quota_exceeded, emits onKeyExhausted(1,1)
and leases the fresh key B (whose requestCount becomes 1) — but the retry
invokes the fetch with A again: fetchKeys is [A, A], A already being in
quota_exceeded status at the second invocation, because the const apiKey
variable is never reassigned to the freshly leased newKey. -/
theorem claim_C2_stale_key_bug :
    (processChannel (fun u => some ⟨"id", u⟩) quotaThenSuccess (sampleInput "u0")
        0 false kmAB [] 0).fetchKeys = ["A", "A"] ∧
    (recGet (processChannel (fun u => some ⟨"id", u⟩) quotaThenSuccess
        (sampleInput "u0") 0 false kmAB [] 0).km.keys "A").map ApiKeyInfo.status =
      some KeyStatus.quota_exceeded ∧
    (recGet (processChannel (fun u => some ⟨"id", u⟩) quotaThenSuccess
        (sampleInput "u0") 0 false kmAB [] 0).km.keys "B").map
        ApiKeyInfo.requestCount = some 1 ∧
    (processChannel (fun u => some ⟨"id", u⟩) quotaThenSuccess (sampleInput "u0")
        0 false kmAB [] 0).keyExhaustedEvents = [(1, 1)] :=
  ⟨rfl, rfl, rfl, rfl⟩

/-- Two-item batch used to refute C1 as stated. -/
def cexInputs : List ChannelInput := [sampleInput "u0", sampleInput "u1"]

/-- One-key pool used to refute C1 as stated. -/
def cexKM : KMState := ⟨[("K", validInfo "K")], ["K"], 0⟩

/-- C1 counterexample: 2 items, 1 valid key, worker count 1; item 0's fetch
signals quota, the only key is marked exhausted, the lease for the retry
fails, the batch aborts via the all-keys-exhausted check, and
results.filter(Boolean) drops item 1's never-filled slot — the returned
collection has 1 entry for 2 submitted items, so it does not have exactly
N entries for every cancelled batch. -/
theorem claim_C1_cex :
    cexInputs.length = 2 ∧
    (processChannelBatchSeq (fun u => some ⟨"id", u⟩)
        (fun _ _ => FetchOutcome.dataError "quotaExceeded")
        cexInputs cexKM [] 0).1.length = 1 ∧
    (processChannelBatchSeq (fun u => some ⟨"id", u⟩)
        (fun _ _ => FetchOutcome.dataError "quotaExceeded")
        cexInputs cexKM [] 0).2.aborted = true :=
  ⟨rfl, rfl, rfl⟩

theorem filterMap_id_all_some {α : Type} (l : List (Option α))
    (h : ∀ i, i < l.length → (l.get? i).join.isSome = true) :
    (l.filterMap id).length = l.length ∧
    ∀ i, i < l.length → (l.filterMap id).get? i = (l.get? i).join := by
  induction l with
  | nil => exact ⟨rfl, fun i hi => absurd hi (by simp)⟩
  | cons a t ih =>
    have ha : a.isSome = true := by
      have h0 := h 0 (by simp)
      simpa [Option.join] using h0
    obtain ⟨v, rfl⟩ := Option.isSome_iff_exists.mp ha
    have ht : ∀ i, i < t.length → (t.get? i).join.isSome = true := by
      intro i hi
      have hs := h (i + 1) (by simp; omega)
      simpa using hs
    obtain ⟨ihL, ihG⟩ := ih ht
    refine ⟨?_, ?_⟩
    · simp [List.filterMap_cons, ihL]
    · intro i hi
      cases i with
      | zero => simp [List.filterMap_cons, Option.join]
      | succ j =>
        have hj : j < t.length := by simp at hi; omega
        simpa [List.filterMap_cons] using ihG j hj

theorem runWorker_filled (resolver : String → Option ParsedId)
    (oracle : Nat → Nat → FetchOutcome) (inputs : List ChannelInput) (now : Nat) :
    ∀ (fuel : Nat) (st : BatchState),
      st.resultsOpt.length = inputs.length →
      (∀ i, i < st.nextIndex → i < inputs.length →
        (st.resultsOpt.get? i).join.isSome = true) →
      inputs.length + 1 ≤ fuel + st.nextIndex →
      (runWorker resolver oracle inputs now fuel st).resultsOpt.length =
        inputs.length ∧
      ((runWorker resolver oracle inputs now fuel st).aborted = false →
        ∀ i, i < inputs.length →
          ((runWorker resolver oracle inputs now fuel st).resultsOpt.get? i).join.isSome
            = true) := by
  intro fuel
  induction fuel with
  | zero =>
    intro st hlen hfill hfuel
    rw [runWorker]
    exact ⟨hlen, fun _ i hi => hfill i (by omega) hi⟩
  | succ fuel ih =>
    intro st hlen hfill hfuel
    rw [runWorker]
    by_cases hab : st.aborted = true
    · rw [if_pos hab]
      refine ⟨hlen, ?_⟩
      intro hf
      exact absurd hf (by simp [hab])
    · rw [if_neg hab]
      dsimp only
      cases hin : inputs.get? st.nextIndex with
      | none =>
        have hge : inputs.length ≤ st.nextIndex := List.get?_eq_none.mp hin
        refine ⟨hlen, ?_⟩
        intro _ i hi
        exact hfill i (by omega) hi
      | some input =>
        have hlt : st.nextIndex < inputs.length := by
          by_contra hc
          rw [List.get?_eq_none.mpr (by omega)] at hin
          exact absurd hin (by simp)
        dsimp only
        have hlen2 :
            (st.resultsOpt.set st.nextIndex
              (some (processChannel resolver (oracle st.nextIndex) input
                st.nextIndex st.aborted st.km st.cache now).result)).length =
              inputs.length := by
          rw [List.length_set]; exact hlen
        have hfill2 : ∀ i, i < st.nextIndex + 1 → i < inputs.length →
            ((st.resultsOpt.set st.nextIndex
              (some (processChannel resolver (oracle st.nextIndex) input
                st.nextIndex st.aborted st.km st.cache now).result)).get? i).join.isSome
              = true := by
          intro i hi hiN
          by_cases he : i = st.nextIndex
          · subst he
            rw [List.get?_set_eq]
            have hsome : st.nextIndex < st.resultsOpt.length := by
              rw [hlen]; exact hiN
            rw [List.get?_eq_get hsome]
            simp [Option.join]
          · rw [List.get?_set_ne _ _ (fun hc => he hc.symm)]
            exact hfill i (by omega) hiN
        by_cases hk : hasAvailableKeys
            (processChannel resolver (oracle st.nextIndex) input st.nextIndex
              st.aborted st.km st.cache now).km = true
        · rw [if_pos hk]
          refine ih _ hlen2 hfill2 ?_
          show inputs.length + 1 ≤ fuel + (st.nextIndex + 1)
          omega
        · rw [if_neg hk]
          refine ⟨hlen2, ?_⟩
          intro hf
          exact absurd hf (by simp)

/-- C1 amended: in the deterministic single-worker run, when the batch
ends uncancelled (no external stop and the key pool never drains), the
returned collection has exactly N entries, entry i being exactly the
filled slot of item i, in original submission order; a cancelled batch
instead returns only the slots that were filled (in original order),
because results.filter(Boolean) drops the rest. -/
theorem claim_C1_amended :
    ∀ (resolver : String → Option ParsedId) (oracle : Nat → Nat → FetchOutcome)
      (inputs : List ChannelInput) (km : KMState) (cache : Cache) (now : Nat),
      (processChannelBatchSeq resolver oracle inputs km cache now).2.aborted = false →
      (processChannelBatchSeq resolver oracle inputs km cache now).1.length =
        inputs.length ∧
      ∀ i, i < inputs.length →
        (processChannelBatchSeq resolver oracle inputs km cache now).1.get? i =
          ((processChannelBatchSeq resolver oracle inputs
            km cache now).2.resultsOpt.get? i).join ∧
        ((processChannelBatchSeq resolver oracle inputs
          km cache now).2.resultsOpt.get? i).join.isSome = true := by
  intro resolver oracle inputs km cache now hab
  obtain ⟨hL, hF⟩ := runWorker_filled resolver oracle inputs now
    (inputs.length + 1)
    ⟨List.replicate inputs.length none, 0, 0, 0, false, km, cache⟩
    (List.length_replicate inputs.length none)
    (fun i hi _ => absurd hi (Nat.not_lt_zero i))
    (by show inputs.length + 1 ≤ inputs.length + 1 + 0; omega)
  have hab2 : (runWorker resolver oracle inputs now (inputs.length + 1)
      ⟨List.replicate inputs.length none, 0, 0, 0, false, km, cache⟩).aborted =
      false := hab
  have hfills := hF hab2
  obtain ⟨hfmL, hfmG⟩ := filterMap_id_all_some
    (runWorker resolver oracle inputs now (inputs.length + 1)
      ⟨List.replicate inputs.length none, 0, 0, 0, false, km, cache⟩).resultsOpt
    (fun i hi => hfills i (by rw [hL] at hi; exact hi))
  constructor
  · show ((runWorker resolver oracle inputs now (inputs.length + 1)
        ⟨List.replicate inputs.length none, 0, 0, 0, false, km,
          cache⟩).resultsOpt.filterMap id).length = inputs.length
    rw [hfmL, hL]
  · intro i hi
    constructor
    · show ((runWorker resolver oracle inputs now (inputs.length + 1)
          ⟨List.replicate inputs.length none, 0, 0, 0, false, km,
            cache⟩).resultsOpt.filterMap id).get? i = _
      exact hfmG i (by rw [hL]; exact hi)
    · exact hfills i hi

/-- Closed witness for the amended C1: a one-item batch that completes
uncancelled has one entry, filled at slot 0. -/
theorem claim_C1_amended_witness :
    (processChannelBatchSeq (fun u => some ⟨"id", u⟩)
        (fun _ _ => FetchOutcome.success samplePayload) [sampleInput "u"]
        cexKM [] 0).2.aborted = false ∧
    (processChannelBatchSeq (fun u => some ⟨"id", u⟩)
        (fun _ _ => FetchOutcome.success samplePayload) [sampleInput "u"]
        cexKM [] 0).1.length = 1 ∧
    ((processChannelBatchSeq (fun u => some ⟨"id", u⟩)
        (fun _ _ => FetchOutcome.success samplePayload) [sampleInput "u"]
        cexKM [] 0).2.resultsOpt.get? 0).join.isSome = true := by
  have h := claim_C1_amended (fun u => some ⟨"id", u⟩)
    (fun _ _ => FetchOutcome.success samplePayload) [sampleInput "u"]
    cexKM [] 0 (by decide)
  exact ⟨by decide, h.1, (h.2 0 (by decide)).2⟩

end YT
